import Mathlib

set_option maxHeartbeats 1000000

/-!
Verification of the EnhanceIO TTC layer (`Driver/enhanceio/eio_ttc.c`).

This is a shallow embedding of the C source.  Sectors are natural numbers,
error codes are integers (negative errno values, as returned by the kernel
code), and block devices are identified by numeric ids: `bdevId` stands for
the `struct block_device *` of the partition being cached, `containsId` for
`bdev->bd_contains` (the unpartitioned device holding it; equal to `bdevId`
for a whole-disk device node).

The registry hash table (`eio_ttc_list` / `eio_ttc_lock`) is modelled as a
single flat list of bindings: the hash index `EIO_HASH_BDEV` is a function
of the underlying device id alone, so all bindings of one underlying device
live in one bucket, and every loop in the source skips entries whose
underlying device differs from the one at hand.  Scanning one flat list is
therefore behaviourally identical for the sequential properties considered
here.
-/

/-- Kernel error codes used by the TTC layer (values as returned, i.e.
negated errno). -/
def errINVAL : Int := -22

def errNOMEM : Int := -12

def errOPNOTSUPP : Int := -95

def errNODEV : Int := -19

/-- A device queue entry point (`make_request_fn` value).  `intercept`
stands for `eio_make_request_fn`; `original k` stands for any other
function pointer value. -/
inductive MFn where
  | intercept
  | original (k : Nat)
deriving DecidableEq, Repr

/-- `dmc->dev_info`: `EIO_DEV_WHOLE_DISK` or `EIO_DEV_PARTITION`. -/
inductive DevInfo where
  | wholeDisk
  | partition
deriving DecidableEq, Repr

/-- Cache operating mode (`CACHE_MODE_RO` / `CACHE_MODE_WT` /
`CACHE_MODE_WB` from eio.h, which is not part of the sources given;
modelled from the spec: `read-only|write-through|write-back`). -/
inductive CacheMode where
  | ro
  | wt
  | wb
deriving DecidableEq, Repr

/-- One active cache binding: the fields of `struct cache_c` that the TTC
layer reads or writes.  `cid` models the node identity of the `dmc`
allocation (pointer comparisons such as `dmc == dmc1` compare `cid`).
`failed` models `CACHE_FAILED_IS_SET(dmc)` and `nrDirty` models
`atomic64_read(&dmc->nr_dirty)`. -/
structure Cache where
  cid : Nat
  bdevId : Nat
  containsId : Nat
  devStartSect : Nat
  devEndSect : Nat
  devInfo : DevInfo
  origmfn : MFn
  mode : CacheMode
  failed : Bool
  nrDirty : Nat
deriving DecidableEq, Repr

/-- An inbound I/O request: the fields of `struct bio` that
`eio_make_request_fn` reads.  `sector` is `EIO_BIO_BI_SECTOR(bio)`,
`nsect` is `eio_to_sector(EIO_BIO_BI_SIZE(bio))` (the size in sectors) and
`isDiscard` is `bio_op(bio) == REQ_OP_DISCARD`. -/
structure BioRec where
  bdevId : Nat
  containsId : Nat
  sector : Nat
  nsect : Nat
  isDiscard : Bool
deriving DecidableEq, Repr

/-- The last sector touched by an I/O:
`EIO_BIO_BI_SECTOR(bio) + eio_to_sector(EIO_BIO_BI_SIZE(bio)) - 1`. -/
def bioLast (b : BioRec) : Nat := b.sector + b.nsect - 1

/-- The containment test of `eio_make_request_fn` (eio_ttc.c:401-404):
"I/O perfectly fit within cached partition". -/
def containsBio (c : Cache) (b : BioRec) : Prop :=
  c.devStartSect ≤ b.sector ∧ bioLast b ≤ c.devEndSect

/-- The overlap test of `eio_make_request_fn` (eio_ttc.c:411-416): the
I/O's start sector or its last sector lies inside the binding's range. -/
def endpointIn (c : Cache) (b : BioRec) : Prop :=
  (c.devStartSect ≤ b.sector ∧ b.sector ≤ c.devEndSect) ∨
  (c.devStartSect ≤ bioLast b ∧ bioLast b ≤ c.devEndSect)

instance (c : Cache) (b : BioRec) : Decidable (containsBio c b) := by
  unfold containsBio; infer_instance

instance (c : Cache) (b : BioRec) : Decidable (endpointIn c b) := by
  unfold endpointIn; infer_instance

/-- The claim-side notion of (nonempty) intersection between an I/O's
sector range and a binding's range: used only to state what the spec calls
"partially intersects". -/
def overlapsBio (c : Cache) (b : BioRec) : Prop :=
  c.devStartSect ≤ bioLast b ∧ b.sector ≤ c.devEndSect

instance (c : Cache) (b : BioRec) : Decidable (overlapsBio c b) := by
  unfold overlapsBio; infer_instance

/-- The three-way routing decision of `eio_make_request_fn`:
`toCache c` means the scan ended with `dmc = c` (the I/O is handed to
`eio_map`), `split` means `overlap` was set, `passthrough` means the scan
fell through to `hdd_make_request(origmfn, bio)`. -/
inductive Decision where
  | toCache (c : Cache)
  | split
  | passthrough
deriving DecidableEq, Repr

/-- The classification loop of `eio_make_request_fn` (eio_ttc.c:387-424),
run over the bindings of the shard.  Entries on another underlying device
are skipped (`continue`); a whole-disk binding wins immediately; otherwise
the first binding fully containing the I/O wins; otherwise the first
binding holding the I/O's start or last sector flags an overlap; otherwise
the scan continues. -/
def scanList (b : BioRec) : List Cache → Decision
  | [] => .passthrough
  | c :: rest =>
    if c.containsId = b.containsId then
      if c.devInfo = DevInfo.wholeDisk then .toCache c
      else if containsBio c b then .toCache c
      else if endpointIn c b then .split
      else scanList b rest
    else scanList b rest

/-- A whole-disk binding for the I/O's underlying device exists. -/
def hasWholeOn (b : BioRec) (cs : List Cache) : Prop :=
  ∃ c ∈ cs, c.containsId = b.containsId ∧ c.devInfo = DevInfo.wholeDisk

/-- Some binding on the I/O's underlying device fully contains it. -/
def hasContaining (b : BioRec) (cs : List Cache) : Prop :=
  ∃ c ∈ cs, c.containsId = b.containsId ∧ containsBio c b

/-- Exactly one binding on the I/O's underlying device fully contains
it. -/
def uniqueContaining (b : BioRec) (cs : List Cache) : Prop :=
  ∃! c, c ∈ cs ∧ c.containsId = b.containsId ∧ containsBio c b

/-- Some binding on the I/O's underlying device holds the I/O's start or
last sector without fully containing it. -/
def hasCrossing (b : BioRec) (cs : List Cache) : Prop :=
  ∃ c ∈ cs, c.containsId = b.containsId ∧ endpointIn c b ∧ ¬containsBio c b

instance (b : BioRec) (cs : List Cache) : Decidable (hasWholeOn b cs) := by
  unfold hasWholeOn; infer_instance

instance (b : BioRec) (cs : List Cache) : Decidable (hasContaining b cs) := by
  unfold hasContaining; infer_instance

instance (b : BioRec) (cs : List Cache) : Decidable (hasCrossing b cs) := by
  unfold hasCrossing; infer_instance

/-- Compatibility of two bindings: if they live on the same underlying
device they are both partitions with disjoint sector ranges. -/
def wfRel (c1 c2 : Cache) : Prop :=
  c1.containsId = c2.containsId →
    c1.devInfo = DevInfo.partition ∧ c2.devInfo = DevInfo.partition ∧
    (c1.devEndSect < c2.devStartSect ∨ c2.devEndSect < c1.devStartSect)

lemma wfRel_symm : Symmetric wfRel := by
  intro x y hxy hyx
  obtain ⟨h1, h2, h3⟩ := hxy hyx.symm
  exact ⟨h2, h1, h3.symm⟩

/-- The registry invariant of the spec (section 3, RegistryShard): on one
underlying device, either a single whole-disk binding or any number of
partition bindings with pairwise disjoint sector ranges. -/
def wfBindings (cs : List Cache) : Prop :=
  cs.Pairwise wfRel

lemma wfBindings_nil : wfBindings [] := List.Pairwise.nil

lemma sector_le_bioLast (b : BioRec) (hn : 1 ≤ b.nsect) : b.sector ≤ bioLast b := by
  unfold bioLast; omega

/-- Two range-disjoint bindings cannot both touch the I/O: if one fully
contains the I/O, the other cannot hold either endpoint. -/
lemma disjoint_no_cross (b : BioRec) (c1 c2 : Cache) (hn : 1 ≤ b.nsect)
    (h2 : containsBio c2 b) (h1 : endpointIn c1 b)
    (hd : c1.devEndSect < c2.devStartSect ∨ c2.devEndSect < c1.devStartSect) :
    False := by
  unfold containsBio endpointIn bioLast at *
  omega

lemma hasWholeOn_cons (b : BioRec) (c : Cache) (rest : List Cache) :
    hasWholeOn b (c :: rest) ↔
      (c.containsId = b.containsId ∧ c.devInfo = DevInfo.wholeDisk) ∨ hasWholeOn b rest := by
  simp [hasWholeOn]

lemma hasContaining_cons (b : BioRec) (c : Cache) (rest : List Cache) :
    hasContaining b (c :: rest) ↔
      (c.containsId = b.containsId ∧ containsBio c b) ∨ hasContaining b rest := by
  simp [hasContaining]

lemma hasCrossing_cons (b : BioRec) (c : Cache) (rest : List Cache) :
    hasCrossing b (c :: rest) ↔
      (c.containsId = b.containsId ∧ endpointIn c b ∧ ¬containsBio c b) ∨ hasCrossing b rest := by
  simp [hasCrossing]

/-- Case analysis of the classification loop: with the registry invariant
in force, the loop's verdict is characterised order-independently. -/
lemma scan_cases (b : BioRec) (cs : List Cache) (hwf : wfBindings cs) (hn : 1 ≤ b.nsect) :
    ((∃ c, scanList b cs = .toCache c) ↔ (hasWholeOn b cs ∨ hasContaining b cs)) ∧
    (scanList b cs = .split ↔
      (¬hasWholeOn b cs ∧ ¬hasContaining b cs ∧ hasCrossing b cs)) ∧
    (scanList b cs = .passthrough ↔
      (¬hasWholeOn b cs ∧ ¬hasContaining b cs ∧ ¬hasCrossing b cs)) := by
  induction cs with
  | nil =>
    simp [scanList, hasWholeOn, hasContaining, hasCrossing]
  | cons c rest ih =>
    rw [wfBindings, List.pairwise_cons] at hwf
    obtain ⟨hhead, htail⟩ := hwf
    have ih' := ih htail
    by_cases hdev : c.containsId = b.containsId
    · by_cases hw : c.devInfo = DevInfo.wholeDisk
      · have hscan : scanList b (c :: rest) = .toCache c := by
          simp [scanList, hdev, hw]
        have hwhole : hasWholeOn b (c :: rest) := ⟨c, List.mem_cons_self c rest, hdev, hw⟩
        refine ⟨iff_of_true ⟨c, hscan⟩ (Or.inl hwhole), ?_, ?_⟩
        · exact iff_of_false (by simp [hscan]) (fun h => h.1 hwhole)
        · exact iff_of_false (by simp [hscan]) (fun h => h.1 hwhole)
      · by_cases hcont : containsBio c b
        · have hscan : scanList b (c :: rest) = .toCache c := by
            simp [scanList, hdev, hw, hcont]
          have hhc : hasContaining b (c :: rest) := ⟨c, List.mem_cons_self c rest, hdev, hcont⟩
          refine ⟨iff_of_true ⟨c, hscan⟩ (Or.inr hhc), ?_, ?_⟩
          · exact iff_of_false (by simp [hscan]) (fun h => h.2.1 hhc)
          · exact iff_of_false (by simp [hscan]) (fun h => h.2.1 hhc)
        · by_cases hcross : endpointIn c b
          · have hscan : scanList b (c :: rest) = .split := by
              simp [scanList, hdev, hw, hcont, hcross]
            -- no whole-disk binding: `c` is not one, and any sibling on the
            -- same device would violate the pairwise invariant with `c`
            have hnw : ¬hasWholeOn b (c :: rest) := by
              rw [hasWholeOn_cons]
              rintro (⟨-, hw'⟩ | ⟨c2, hm2, hd2, hw2⟩)
              · exact hw hw'
              · have := hhead c2 hm2 (hdev.trans hd2.symm)
                rw [this.2.1] at hw2
                cases hw2
            -- nothing contains the I/O: `c` does not, and containment in a
            -- sibling would put an endpoint of the I/O in two disjoint ranges
            have hnc : ¬hasContaining b (c :: rest) := by
              rw [hasContaining_cons]
              rintro (⟨-, hc'⟩ | ⟨c2, hm2, hd2, hc2⟩)
              · exact hcont hc'
              · exact disjoint_no_cross b c c2 hn hc2 hcross
                  (hhead c2 hm2 (hdev.trans hd2.symm)).2.2
            have hhx : hasCrossing b (c :: rest) :=
              ⟨c, List.mem_cons_self c rest, hdev, hcross, hcont⟩
            refine ⟨?_, ?_, ?_⟩
            · refine iff_of_false ?_ ?_
              · rintro ⟨c', h⟩
                rw [hscan] at h
                cases h
              · rintro (h | h)
                · exact absurd h hnw
                · exact absurd h hnc
            · exact iff_of_true hscan ⟨hnw, hnc, hhx⟩
            · exact iff_of_false (by simp [hscan]) (fun h => h.2.2 hhx)
          · -- `c` plays no role: recurse
            have hscan : scanList b (c :: rest) = scanList b rest := by
              simp [scanList, hdev, hw, hcont, hcross]
            rw [hscan, hasWholeOn_cons, hasContaining_cons, hasCrossing_cons]
            have hcW : ¬(c.containsId = b.containsId ∧ c.devInfo = DevInfo.wholeDisk) := by
              rintro ⟨-, h⟩; exact hw h
            have hcC : ¬(c.containsId = b.containsId ∧ containsBio c b) := by
              rintro ⟨-, h⟩; exact hcont h
            have hcX : ¬(c.containsId = b.containsId ∧ endpointIn c b ∧ ¬containsBio c b) := by
              rintro ⟨-, h, -⟩; exact hcross h
            simp only [hcW, hcC, hcX, false_or]
            exact ih'
    · have hscan : scanList b (c :: rest) = scanList b rest := by
        simp [scanList, hdev]
      rw [hscan, hasWholeOn_cons, hasContaining_cons, hasCrossing_cons]
      have hcW : ¬(c.containsId = b.containsId ∧ c.devInfo = DevInfo.wholeDisk) := by
        rintro ⟨h, -⟩; exact hdev h
      have hcC : ¬(c.containsId = b.containsId ∧ containsBio c b) := by
        rintro ⟨h, -⟩; exact hdev h
      have hcX : ¬(c.containsId = b.containsId ∧ endpointIn c b ∧ ¬containsBio c b) := by
        rintro ⟨h, -⟩; exact hdev h
      simp only [hcW, hcC, hcX, false_or]
      exact ih'

/-- Under the registry invariant, a containing binding is unique. -/
lemma containing_unique (b : BioRec) (cs : List Cache) (hwf : wfBindings cs)
    (hn : 1 ≤ b.nsect) (h : hasContaining b cs) : uniqueContaining b cs := by
  obtain ⟨c, hm, hd, hc⟩ := h
  refine ⟨c, ⟨hm, hd, hc⟩, ?_⟩
  rintro c' ⟨hm', hd', hc'⟩
  by_contra hne
  have hrel := List.Pairwise.forall wfRel_symm hwf hm' hm hne
  obtain ⟨-, -, hdisj⟩ := hrel (hd'.trans hd.symm)
  have h1 := sector_le_bioLast b hn
  unfold containsBio at hc hc'
  omega

/-- Concrete binding: partition [100,199] of underlying device 1. -/
def c1CacheA : Cache :=
  { cid := 0, bdevId := 2, containsId := 1, devStartSect := 100, devEndSect := 199,
    devInfo := DevInfo.partition, origmfn := MFn.original 7, mode := CacheMode.wt,
    failed := false, nrDirty := 0 }

/-- Concrete I/O [50,250]: it strictly contains the binding's range
[100,199], so it partially intersects it without being contained. -/
def c1BioWide : BioRec :=
  { bdevId := 1, containsId := 1, sector := 50, nsect := 201, isDiscard := false }

/-- Concrete I/O [100,150]: fully inside the binding's range. -/
def c1BioIn : BioRec :=
  { bdevId := 2, containsId := 1, sector := 100, nsect := 51, isDiscard := false }

/-- C1 (counterexample): the claim says an I/O that partially intersects a
binding's range without full containment — explicitly including an I/O
that strictly contains the binding's entire range — is classified
ROUTE_SPLIT.  On the single well-formed binding [100,199] the I/O [50,250]
intersects without containment, yet the scan of eio_ttc.c:387-424 returns
passthrough: the overlap test at lines 411-416 only looks at the I/O's two
endpoint sectors, and both lie outside the binding's range. -/
theorem c1_route_strict_containment_counterexample :
    wfBindings [c1CacheA] ∧ overlapsBio c1CacheA c1BioWide ∧
    ¬containsBio c1CacheA c1BioWide ∧
    scanList c1BioWide [c1CacheA] = Decision.passthrough := by
  refine ⟨?_, by decide, by decide, by decide⟩
  simp [wfBindings]

/-- C1 (amended): for every inbound I/O of at least one sector and every
well-formed registry, the scan returns ROUTE_TO_CACHE iff a whole-disk
binding exists for the device or the I/O is fully contained in exactly one
binding's range; ROUTE_SPLIT iff neither holds and the I/O's start or last
sector lies inside some binding's range without full containment; and
ROUTE_PASSTHROUGH otherwise (in particular an I/O that strictly contains a
binding's range with both endpoints outside it is passed through, not
split). -/
theorem c1_route_characterization (b : BioRec) (cs : List Cache)
    (hwf : wfBindings cs) (hn : 1 ≤ b.nsect) :
    ((∃ c, scanList b cs = Decision.toCache c) ↔
      (hasWholeOn b cs ∨ uniqueContaining b cs)) ∧
    (scanList b cs = Decision.split ↔
      (¬hasWholeOn b cs ∧ ¬hasContaining b cs ∧ hasCrossing b cs)) ∧
    (scanList b cs = Decision.passthrough ↔
      (¬hasWholeOn b cs ∧ ¬hasContaining b cs ∧ ¬hasCrossing b cs)) := by
  obtain ⟨h1, h2, h3⟩ := scan_cases b cs hwf hn
  refine ⟨?_, h2, h3⟩
  rw [h1]
  constructor
  · rintro (h | h)
    · exact Or.inl h
    · exact Or.inr (containing_unique b cs hwf hn h)
  · rintro (h | ⟨c, ⟨hm, hd, hc⟩, -⟩)
    · exact Or.inl h
    · exact Or.inr ⟨c, hm, hd, hc⟩

/-- C1 (witness): the characterization applied to the spec's scenario —
binding on partition [100,199], I/O at [100,150] routes to the cache. -/
theorem c1_route_characterization_witness :
    wfBindings [c1CacheA] ∧ 1 ≤ c1BioIn.nsect ∧
    ((∃ c, scanList c1BioIn [c1CacheA] = Decision.toCache c) ↔
      (hasWholeOn c1BioIn [c1CacheA] ∨ uniqueContaining c1BioIn [c1CacheA])) :=
  ⟨by simp [wfBindings], by decide,
   (c1_route_characterization c1BioIn [c1CacheA] (by simp [wfBindings]) (by decide)).1⟩

/-- The global TTC registry state: the binding lists (`eio_ttc_list`,
flattened), the per-device queue entry point (`bd_disk->queue` is shared
by a device and all its partitions, so it is indexed by the underlying
device id), and a fresh-node counter modelling that each successful
activation works on a newly allocated `cache_c` node. -/
structure Registry where
  caches : List Cache
  mfn : Nat → MFn
  nextId : Nat

/-- The fields of the incoming `cache_c` that `eio_ttc_activate` reads:
the source device's identity and geometry (`bdev->bd_part->start_sect`,
`bd_part->nr_sects`), plus the mode/failure/dirty state used later by
deactivation.  The device is whole-disk iff `bdevId = containsId`
(`bdev == bdev->bd_contains`, eio_ttc.c:187). -/
structure NewCache where
  bdevId : Nat
  containsId : Nat
  startSect : Nat
  nrSects : Nat
  mode : CacheMode
  failed : Bool
  nrDirty : Nat
deriving DecidableEq, Repr

/-- The first binding in the shard list on the given underlying device:
the element at which the activation loop (eio_ttc.c:203-218) stops. -/
def findSameDev (dev : Nat) : List Cache → Option Cache
  | [] => none
  | c :: rest => if c.containsId = dev then some c else findSameDev dev rest

/-- Build the `cache_c` node inserted by `eio_ttc_activate`
(eio_ttc.c:190-192 and 224-233). -/
def mkCache (r : Registry) (n : NewCache) (info : DevInfo) (om : MFn) : Cache :=
  { cid := r.nextId, bdevId := n.bdevId, containsId := n.containsId,
    devStartSect := n.startSect, devEndSect := n.startSect + n.nrSects - 1,
    devInfo := info, origmfn := om, mode := n.mode, failed := n.failed,
    nrDirty := n.nrDirty }

/-- `eio_ttc_activate` (eio_ttc.c:169-256).  The loop stops at the first
binding on the same underlying device: if the new binding is whole-disk,
or that binding is whole-disk, or it sits on the identical partition
device, activation fails with -EINVAL ("already cached") and nothing is
changed.  Otherwise the sibling supplies the saved original entry point.
With no same-device binding, the live queue entry point is saved as
original and the interception entry point is installed.  In all success
cases the new binding is appended to the shard list.  (The `msleep` and
empty barrier flush at lines 242-244 have no registry-visible effect and
are not modelled.) -/
def eio_ttc_activate (r : Registry) (n : NewCache) : Registry × Int :=
  let wholedisk := n.bdevId = n.containsId
  match findSameDev n.containsId r.caches with
  | some c1 =>
    if wholedisk ∨ c1.devInfo = DevInfo.wholeDisk ∨ c1.bdevId = n.bdevId then
      (r, errINVAL)
    else
      ({ caches := r.caches ++ [mkCache r n DevInfo.partition c1.origmfn],
         mfn := r.mfn, nextId := r.nextId + 1 }, 0)
  | none =>
      ({ caches := r.caches ++
           [mkCache r n (if wholedisk then DevInfo.wholeDisk else DevInfo.partition)
             (r.mfn n.containsId)],
         mfn := fun d => if d = n.containsId then MFn.intercept else r.mfn d,
         nextId := r.nextId + 1 }, 0)

lemma findSameDev_none_iff (dev : Nat) (cs : List Cache) :
    findSameDev dev cs = none ↔ ∀ c ∈ cs, c.containsId ≠ dev := by
  induction cs with
  | nil => simp [findSameDev]
  | cons c rest ih =>
    by_cases h : c.containsId = dev
    · simp [findSameDev, h]
    · simp [findSameDev, h, ih]

lemma findSameDev_some_mem (dev : Nat) (cs : List Cache) (c1 : Cache)
    (h : findSameDev dev cs = some c1) : c1 ∈ cs ∧ c1.containsId = dev := by
  induction cs with
  | nil => simp [findSameDev] at h
  | cons c rest ih =>
    by_cases hc : c.containsId = dev
    · rw [findSameDev, if_pos hc] at h
      obtain rfl : c = c1 := by injection h
      exact ⟨List.mem_cons_self c rest, hc⟩
    · rw [findSameDev, if_neg hc] at h
      obtain ⟨hm, hd⟩ := ih h
      exact ⟨List.mem_cons_of_mem c hm, hd⟩

/-- The claim's conflict predicate, transcribed from the spec's words:
some existing binding on the same underlying device conflicts (the new
binding is whole-disk, or the existing one is whole-disk, or it covers the
identical partition). -/
def specConflict (r : Registry) (n : NewCache) : Prop :=
  ∃ c ∈ r.caches, c.containsId = n.containsId ∧
    (n.bdevId = n.containsId ∨ c.devInfo = DevInfo.wholeDisk ∨ c.bdevId = n.bdevId)

instance (r : Registry) (n : NewCache) : Decidable (specConflict r n) := by
  unfold specConflict; infer_instance

/-- Partition [0,99] of device 1, activated first. -/
def c4CacheP2 : Cache :=
  { cid := 0, bdevId := 2, containsId := 1, devStartSect := 0, devEndSect := 99,
    devInfo := DevInfo.partition, origmfn := MFn.original 7, mode := CacheMode.wt,
    failed := false, nrDirty := 0 }

/-- Partition [100,199] of device 1, activated second. -/
def c4CacheP3 : Cache :=
  { cid := 1, bdevId := 3, containsId := 1, devStartSect := 100, devEndSect := 199,
    devInfo := DevInfo.partition, origmfn := MFn.original 7, mode := CacheMode.wt,
    failed := false, nrDirty := 0 }

/-- A registry holding the two partition bindings of device 1. -/
def c4Reg : Registry :=
  { caches := [c4CacheP2, c4CacheP3], mfn := fun _ => MFn.intercept, nextId := 2 }

/-- An activation request for the partition identical to `c4CacheP3`. -/
def c4Dup : NewCache :=
  { bdevId := 3, containsId := 1, startSect := 100, nrSects := 100,
    mode := CacheMode.wt, failed := false, nrDirty := 0 }

/-- C4 (counterexample): the claim says that whenever any existing binding
on the same underlying device conflicts — in particular when an existing
binding covers the identical partition — activation fails with the
already-cached error and the registry is unchanged.  But the conflict loop
of eio_ttc.c:203-218 `break`s at the first same-device binding: with
device 1 carrying partitions bdev 2 and bdev 3, re-activating bdev 3
stops at the innocent bdev-2 binding, succeeds, and inserts a duplicate
binding. -/
theorem c4_activate_duplicate_partition_counterexample :
    specConflict c4Reg c4Dup ∧ (eio_ttc_activate c4Reg c4Dup).2 = 0 ∧
    (eio_ttc_activate c4Reg c4Dup).1.caches ≠ c4Reg.caches := by
  refine ⟨by decide, by decide, by decide⟩

/-- C4 (amended): activation fails (with -EINVAL, the "already cached"
error) iff the first existing binding on the same underlying device
conflicts — the new binding is whole-disk, or that first binding is
whole-disk or covers the identical partition; on failure the whole
registry (binding list and entry points) is exactly as before the call;
on success the new binding is appended.  A new whole-disk binding is
rejected whenever any same-device binding exists, and under the registry
invariant an existing whole-disk binding is always detected; only an
identical-partition duplicate can slip past the scan, when an earlier
sibling partition binding precedes it (the separate
`eio_do_preliminary_checks` scan catches that case in the full create
path). -/
theorem c4_activate_conflict_characterization (r : Registry) (n : NewCache) :
    ((eio_ttc_activate r n).2 ≠ 0 → eio_ttc_activate r n = (r, errINVAL)) ∧
    ((eio_ttc_activate r n).2 = errINVAL ↔
      ∃ c1, findSameDev n.containsId r.caches = some c1 ∧
        (n.bdevId = n.containsId ∨ c1.devInfo = DevInfo.wholeDisk ∨
         c1.bdevId = n.bdevId)) ∧
    ((eio_ttc_activate r n).2 = 0 →
      ∃ c2, (eio_ttc_activate r n).1.caches = r.caches ++ [c2]) ∧
    (n.bdevId = n.containsId → (∃ c ∈ r.caches, c.containsId = n.containsId) →
      (eio_ttc_activate r n).2 = errINVAL) ∧
    (wfBindings r.caches →
      (∃ c ∈ r.caches, c.containsId = n.containsId ∧ c.devInfo = DevInfo.wholeDisk) →
      (eio_ttc_activate r n).2 = errINVAL) := by
  have hne : (0:Int) ≠ errINVAL := by decide
  cases hf : findSameDev n.containsId r.caches with
  | none =>
    have hnone := (findSameDev_none_iff n.containsId r.caches).1 hf
    refine ⟨?_, ?_, ?_, ?_, ?_⟩
    · intro h
      exfalso
      apply h
      simp [eio_ttc_activate, hf]
    · simp only [eio_ttc_activate, hf]
      constructor
      · intro h; exact absurd h hne
      · rintro ⟨c1, hc1, -⟩; cases hc1
    · rintro -
      simp only [eio_ttc_activate, hf]
      exact ⟨_, rfl⟩
    · rintro - ⟨c, hm, hd⟩
      exact absurd hd (hnone c hm)
    · rintro - ⟨c, hm, hd, -⟩
      exact absurd hd (hnone c hm)
  | some c1 =>
    obtain ⟨hm1, hd1⟩ := findSameDev_some_mem n.containsId r.caches c1 hf
    by_cases ht : n.bdevId = n.containsId ∨ c1.devInfo = DevInfo.wholeDisk ∨
        c1.bdevId = n.bdevId
    · have hact : eio_ttc_activate r n = (r, errINVAL) := by
        simp [eio_ttc_activate, hf, ht]
      refine ⟨fun _ => hact, ?_, ?_, fun _ _ => by simp [hact], fun _ _ => by simp [hact]⟩
      · rw [hact]
        refine iff_of_true rfl ⟨c1, rfl, ht⟩
      · intro h
        rw [hact] at h
        exact absurd (show errINVAL = (0:Int) from h) (by decide)
    · have hact : eio_ttc_activate r n =
          ({ caches := r.caches ++ [mkCache r n DevInfo.partition c1.origmfn],
             mfn := r.mfn, nextId := r.nextId + 1 }, 0) := by
        simp [eio_ttc_activate, hf, ht]
      push_neg at ht
      obtain ⟨ht1, ht2, ht3⟩ := ht
      refine ⟨?_, ?_, ?_, ?_, ?_⟩
      · intro h
        rw [hact] at h
        exact absurd rfl h
      · simp only [hact]
        constructor
        · intro h; exact absurd h hne
        · rintro ⟨c2, hc2, htr⟩
          obtain rfl : c1 = c2 := by injection hc2
          rcases htr with h | h | h
          · exact absurd h ht1
          · exact absurd h ht2
          · exact absurd h ht3
      · rintro -
        simp only [hact]
        exact ⟨_, rfl⟩
      · intro h
        rintro -
        exact absurd h ht1
      · rintro hwf ⟨c, hm, hd, hw⟩
        exfalso
        by_cases hcc : c = c1
        · subst hcc
          exact ht2 hw
        · have := List.Pairwise.forall wfRel_symm hwf hm hm1 hcc (hd.trans hd1.symm)
          rw [this.1] at hw
          cases hw

/-- A whole-disk activation request for device 1. -/
def c4WholeNew : NewCache :=
  { bdevId := 1, containsId := 1, startSect := 0, nrSects := 1000,
    mode := CacheMode.wt, failed := false, nrDirty := 0 }

/-- C4 (witness): activating a whole-disk binding while partition bindings
exist on device 1 is rejected with -EINVAL. -/
theorem c4_activate_conflict_characterization_witness :
    c4WholeNew.bdevId = c4WholeNew.containsId ∧
    (∃ c ∈ c4Reg.caches, c.containsId = c4WholeNew.containsId) ∧
    (eio_ttc_activate c4Reg c4WholeNew).2 = errINVAL :=
  ⟨by decide, by decide,
   (c4_activate_conflict_characterization c4Reg c4WholeNew).2.2.2.1 (by decide) (by decide)⟩

/-- Outcome of `eio_ttc_deactivate`: the registry after the call, the
return value, whether the binding was removed from the shard list, and
whether the final "wait for `nr_ios` to drain out" loop (eio_ttc.c:330-331)
was reached. -/
structure DeacResult where
  reg : Registry
  ret : Int
  removed : Bool
  waited : Bool

/-- `list_del_init(&dmc->cachelist)`: remove the node (identified by its
`cid`) from the shard list. -/
def removeByCid (cid : Nat) : List Cache → List Cache
  | [] => []
  | c :: rest => if c.cid = cid then rest else c :: removeByCid cid rest

/-- `eio_ttc_deactivate` (eio_ttc.c:258-334).  Unless forced, a write-back
cache that is not failed first runs `eio_finish_nrdirty`; its result is
the parameter `drainRet` (the drain loop delegates to the external cleaner
collaborator `eio_clean_all`).  A nonzero drain result aborts the call
before anything is removed.  Otherwise the entry point is restored iff the
binding is whole-disk or no sibling partition of the same device remains
(`dmc == dmc1` pointer comparison is `cid` equality), the node is removed
from the list, and the call waits for the in-flight counter before
returning. -/
def eio_ttc_deactivate (r : Registry) (c : Cache) (force : Bool) (drainRet : Int) :
    DeacResult :=
  if force = false ∧ c.mode = CacheMode.wb ∧ c.failed = false ∧ drainRet ≠ 0 then
    { reg := r, ret := drainRet, removed := false, waited := false }
  else
    { reg :=
        { caches := removeByCid c.cid r.caches,
          mfn :=
            if c.devInfo = DevInfo.wholeDisk ∨
                ¬(c.devInfo ≠ DevInfo.wholeDisk ∧
                  ∃ c1 ∈ r.caches, c1.cid ≠ c.cid ∧ c1.containsId = c.containsId) then
              (fun d => if d = c.containsId then c.origmfn else r.mfn d)
            else r.mfn,
          nextId := r.nextId },
      ret := 0, removed := true, waited := true }

/-- A failed write-back whole-disk binding on device 4 with 5 dirty
blocks. -/
def c7Cache : Cache :=
  { cid := 5, bdevId := 4, containsId := 4, devStartSect := 0, devEndSect := 999,
    devInfo := DevInfo.wholeDisk, origmfn := MFn.original 7, mode := CacheMode.wb,
    failed := true, nrDirty := 5 }

/-- A registry holding only `c7Cache`. -/
def c7Reg : Registry :=
  { caches := [c7Cache], mfn := fun _ => MFn.intercept, nextId := 6 }

/-- C7 (counterexample): the claim says a `force=false` deactivation of a
write-back binding with nonzero dirty count drains first and, if the
drain cannot reach zero, returns the drain error without removing the
binding.  But when `CACHE_FAILED_IS_SET` the code (eio_ttc.c:276-287)
skips the drain entirely and proceeds to removal: on the failed binding
`c7Cache` (5 dirty blocks, drain would fail with -ENODEV per
`eio_finish_nrdirty` lines 1242-1247) the call removes the binding and
returns 0. -/
theorem c7_deactivate_failed_cache_counterexample :
    c7Cache.mode = CacheMode.wb ∧ c7Cache.nrDirty ≠ 0 ∧
    (eio_ttc_deactivate c7Reg c7Cache false errNODEV).removed = true ∧
    (eio_ttc_deactivate c7Reg c7Cache false errNODEV).ret = 0 := by
  refine ⟨by decide, by decide, ?_, ?_⟩ <;> rfl

/-- C7 (amended): for a `force=false` deactivation of a non-failed
write-back binding, a failing drain aborts the call — the drain error is
returned, nothing is removed, and the in-flight wait is not reached —
while a successful drain proceeds to removal; `force=true` proceeds to
removal regardless of mode, failure state, or dirty count; and every
completing (removing) call returns 0, removes exactly the binding's node
from the shard list, and waits for the binding's in-flight I/O counter
after the removal. -/
theorem c7_deactivate_spec (r : Registry) (c : Cache) (force : Bool) (drainRet : Int) :
    (force = false → c.mode = CacheMode.wb → c.failed = false → drainRet ≠ 0 →
      eio_ttc_deactivate r c force drainRet =
        { reg := r, ret := drainRet, removed := false, waited := false }) ∧
    (force = false → c.mode = CacheMode.wb → c.failed = false → drainRet = 0 →
      (eio_ttc_deactivate r c force drainRet).removed = true) ∧
    (force = true → (eio_ttc_deactivate r c force drainRet).removed = true) ∧
    ((eio_ttc_deactivate r c force drainRet).removed = true →
      (eio_ttc_deactivate r c force drainRet).waited = true ∧
      (eio_ttc_deactivate r c force drainRet).ret = 0 ∧
      (eio_ttc_deactivate r c force drainRet).reg.caches = removeByCid c.cid r.caches) := by
  by_cases hg : force = false ∧ c.mode = CacheMode.wb ∧ c.failed = false ∧ drainRet ≠ 0
  · rw [eio_ttc_deactivate, if_pos hg]
    obtain ⟨hg1, hg2, hg3, hg4⟩ := hg
    refine ⟨fun _ _ _ _ => rfl, ?_, ?_, ?_⟩
    · intro _ _ _ h0
      exact absurd h0 hg4
    · intro hforce
      rw [hg1] at hforce
      cases hforce
    · intro h
      cases h
  · rw [eio_ttc_deactivate, if_neg hg]
    refine ⟨?_, fun _ _ _ _ => rfl, fun _ => rfl, fun _ => ⟨rfl, rfl, rfl⟩⟩
    intro h1 h2 h3 h4
    exact absurd ⟨h1, h2, h3, h4⟩ hg

/-- A healthy write-back partition binding on device 1 with dirty
blocks. -/
def c7CacheOk : Cache :=
  { cid := 9, bdevId := 2, containsId := 1, devStartSect := 0, devEndSect := 99,
    devInfo := DevInfo.partition, origmfn := MFn.original 7, mode := CacheMode.wb,
    failed := false, nrDirty := 3 }

/-- A registry holding only `c7CacheOk`. -/
def c7RegOk : Registry :=
  { caches := [c7CacheOk], mfn := fun _ => MFn.intercept, nextId := 10 }

/-- C7 (witness): on a healthy write-back binding, an unforced
deactivation whose drain fails with -EINVAL returns that error without
removing anything. -/
theorem c7_deactivate_spec_witness :
    c7CacheOk.mode = CacheMode.wb ∧ c7CacheOk.failed = false ∧
    eio_ttc_deactivate c7RegOk c7CacheOk false errINVAL =
      { reg := c7RegOk, ret := errINVAL, removed := false, waited := false } :=
  ⟨by decide, by decide,
   (c7_deactivate_spec c7RegOk c7CacheOk false errINVAL).1 rfl rfl rfl (by decide)⟩

lemma removeByCid_subset (cid : Nat) (l : List Cache) :
    ∀ x ∈ removeByCid cid l, x ∈ l := by
  induction l with
  | nil => simp [removeByCid]
  | cons c rest ih =>
    intro x hx
    rw [removeByCid] at hx
    by_cases h : c.cid = cid
    · rw [if_pos h] at hx
      exact List.mem_cons_of_mem c hx
    · rw [if_neg h] at hx
      rcases List.mem_cons.1 hx with rfl | hx
      · exact List.mem_cons_self x rest
      · exact List.mem_cons_of_mem c (ih x hx)

lemma removeByCid_sublist (cid : Nat) (l : List Cache) :
    List.Sublist (removeByCid cid l) l := by
  induction l with
  | nil => simp [removeByCid]
  | cons c rest ih =>
    rw [removeByCid]
    by_cases h : c.cid = cid
    · rw [if_pos h]
      exact List.sublist_cons_of_sublist c (List.Sublist.refl rest)
    · rw [if_neg h]
      exact List.Sublist.cons₂ c ih

lemma mem_removeByCid_of_ne (cid : Nat) (l : List Cache) (x : Cache)
    (hx : x ∈ l) (hne : x.cid ≠ cid) : x ∈ removeByCid cid l := by
  induction l with
  | nil => cases hx
  | cons c rest ih =>
    rw [removeByCid]
    by_cases h : c.cid = cid
    · rw [if_pos h]
      rcases List.mem_cons.1 hx with rfl | hx
      · exact absurd h hne
      · exact hx
    · rw [if_neg h]
      rcases List.mem_cons.1 hx with rfl | hx
      · exact List.mem_cons_self x _
      · exact List.mem_cons_of_mem c (ih hx)

lemma removeByCid_cid_ne (cid : Nat) (l : List Cache)
    (hnd : (l.map Cache.cid).Nodup) :
    ∀ x ∈ removeByCid cid l, x.cid ≠ cid := by
  induction l with
  | nil => simp [removeByCid]
  | cons c rest ih =>
    rw [List.map_cons, List.nodup_cons] at hnd
    obtain ⟨hnotin, hnd⟩ := hnd
    intro x hx
    rw [removeByCid] at hx
    by_cases h : c.cid = cid
    · rw [if_pos h] at hx
      intro hxc
      exact hnotin (by rw [h, ← hxc]; exact List.mem_map_of_mem Cache.cid hx)
    · rw [if_neg h] at hx
      rcases List.mem_cons.1 hx with rfl | hx
      · exact h
      · exact ih hnd x hx

/-- Find a binding node by its node identity. -/
def findByCid (cid : Nat) : List Cache → Option Cache
  | [] => none
  | c :: rest => if c.cid = cid then some c else findByCid cid rest

lemma findByCid_some_mem (cid : Nat) (l : List Cache) (c : Cache)
    (h : findByCid cid l = some c) : c ∈ l ∧ c.cid = cid := by
  induction l with
  | nil => simp [findByCid] at h
  | cons a rest ih =>
    by_cases ha : a.cid = cid
    · rw [findByCid, if_pos ha] at h
      obtain rfl : a = c := by injection h
      exact ⟨List.mem_cons_self a rest, ha⟩
    · rw [findByCid, if_neg ha] at h
      obtain ⟨hm, hc⟩ := ih h
      exact ⟨List.mem_cons_of_mem a hm, hc⟩

/-- One control-plane operation on the TTC registry: an activation with
the given request, or a deactivation of the node with the given identity
(`eio_ttc_deactivate` is always called by a holder of the node). -/
inductive TtcOp where
  | act (n : NewCache)
  | deact (cid : Nat) (force : Bool) (drainRet : Int)

/-- Apply one operation to the registry (deactivating an absent node is a
no-op: the caller always holds a live node). -/
def applyOp (r : Registry) : TtcOp → Registry
  | .act n => (eio_ttc_activate r n).1
  | .deact cid force drainRet =>
    match findByCid cid r.caches with
    | some c => (eio_ttc_deactivate r c force drainRet).reg
    | none => r

/-- Run a sequence of operations from a starting registry. -/
def runOps (r : Registry) (ops : List TtcOp) : Registry := ops.foldl applyOp r

/-- The operation targets (a binding of) underlying device `d`. -/
def opOnDevB (d : Nat) : TtcOp → Bool
  | .act n => n.containsId == d
  | .deact _ _ _ => true

/-- The registry before any binding exists on device `o`'s queue: the live
entry point of every device is an original (non-intercepting) function. -/
def initReg (o : Nat) : Registry :=
  { caches := [], mfn := fun _ => MFn.original o, nextId := 0 }

/-- Invariant tying the bindings of device `d` to its queue entry point:
all bindings sit on `d` and carry the one saved original entry point; a
whole-disk binding is alone; node identities are fresh and distinct; and
the live entry point is the interception function iff a binding remains,
the saved original iff none does. -/
def EntryInv (d o : Nat) (r : Registry) : Prop :=
  (∀ c ∈ r.caches, c.containsId = d) ∧
  (∀ c ∈ r.caches, c.origmfn = MFn.original o) ∧
  (∀ c ∈ r.caches, c.devInfo = DevInfo.wholeDisk → r.caches = [c]) ∧
  (r.caches.map Cache.cid).Nodup ∧
  (∀ c ∈ r.caches, c.cid < r.nextId) ∧
  (r.caches = [] → r.mfn d = MFn.original o) ∧
  (r.caches ≠ [] → r.mfn d = MFn.intercept)

lemma entryInv_init (d o : Nat) : EntryInv d o (initReg o) := by
  refine ⟨by simp [initReg], by simp [initReg], by simp [initReg],
    by simp [initReg], by simp [initReg], fun _ => rfl, fun h => absurd rfl h⟩

lemma entryInv_act (d o : Nat) (r : Registry) (n : NewCache)
    (hr : EntryInv d o r) (hd : n.containsId = d) :
    EntryInv d o (eio_ttc_activate r n).1 := by
  obtain ⟨h1, h2, h3, h4, h5, h6, h7⟩ := hr
  cases hf : findSameDev n.containsId r.caches with
  | none =>
    have hnone := (findSameDev_none_iff n.containsId r.caches).1 hf
    have hempty : r.caches = [] := by
      cases hcs : r.caches with
      | nil => rfl
      | cons a rest =>
        exfalso
        refine hnone a (by rw [hcs]; exact List.mem_cons_self a rest) ?_
        rw [h1 a (by rw [hcs]; exact List.mem_cons_self a rest), hd]
    have hom : r.mfn n.containsId = MFn.original o := by
      rw [hd]; exact h6 hempty
    have hact1 : (eio_ttc_activate r n).1 =
        { caches := [mkCache r n
            (if n.bdevId = n.containsId then DevInfo.wholeDisk else DevInfo.partition)
            (r.mfn n.containsId)],
          mfn := fun d1 => if d1 = n.containsId then MFn.intercept else r.mfn d1,
          nextId := r.nextId + 1 } := by
      simp only [eio_ttc_activate, hempty, findSameDev, List.nil_append]
    rw [hact1]
    refine ⟨?_, ?_, ?_, ?_, ?_, ?_, ?_⟩
    · intro c hc
      rw [List.mem_singleton] at hc
      subst hc
      simp [mkCache, hd]
    · intro c hc
      rw [List.mem_singleton] at hc
      subst hc
      simp [mkCache, hom]
    · intro c hc hw
      rw [List.mem_singleton] at hc
      subst hc
      rfl
    · simp
    · intro c hc
      rw [List.mem_singleton] at hc
      subst hc
      simp [mkCache]
    · intro h
      simp at h
    · rintro -
      simp [hd]
  | some c1 =>
    obtain ⟨hm1, hd1⟩ := findSameDev_some_mem n.containsId r.caches c1 hf
    by_cases ht : n.bdevId = n.containsId ∨ c1.devInfo = DevInfo.wholeDisk ∨
        c1.bdevId = n.bdevId
    · simp only [eio_ttc_activate, hf, if_pos ht]
      exact ⟨h1, h2, h3, h4, h5, h6, h7⟩
    · have hnw : c1.devInfo ≠ DevInfo.wholeDisk := by
        intro h
        exact ht (Or.inr (Or.inl h))
      have hne : r.caches ≠ [] := by
        intro h
        rw [h] at hm1
        cases hm1
      simp only [eio_ttc_activate, hf, if_neg ht]
      refine ⟨?_, ?_, ?_, ?_, ?_, ?_, ?_⟩
      · intro c hc
        rcases List.mem_append.1 hc with hc | hc
        · exact h1 c hc
        · rw [List.mem_singleton] at hc
          subst hc
          simp [mkCache, hd]
      · intro c hc
        rcases List.mem_append.1 hc with hc | hc
        · exact h2 c hc
        · rw [List.mem_singleton] at hc
          subst hc
          simp [mkCache, h2 c1 hm1]
      · intro c hc hw
        exfalso
        rcases List.mem_append.1 hc with hc | hc
        · have hsing := h3 c hc hw
          rw [hsing] at hf
          rw [findSameDev, if_pos (by rw [h1 c hc, hd])] at hf
          obtain rfl : c = c1 := by injection hf
          exact hnw hw
        · rw [List.mem_singleton] at hc
          subst hc
          simp [mkCache] at hw
      · rw [List.map_append, List.nodup_append]
        refine ⟨h4, by simp, ?_⟩
        intro a ha hb
        simp only [List.map_cons, List.map_nil, List.mem_singleton] at hb
        rw [List.mem_map] at ha
        obtain ⟨x, hx, rfl⟩ := ha
        have := h5 x hx
        simp only [mkCache] at hb
        omega
      · intro c hc
        dsimp only
        rcases List.mem_append.1 hc with hc | hc
        · have := h5 c hc
          omega
        · rw [List.mem_singleton] at hc
          subst hc
          simp [mkCache]
      · intro h
        rw [List.append_eq_nil] at h
        exact absurd h.1 hne
      · rintro -
        exact h7 hne

lemma entryInv_deact (d o : Nat) (r : Registry) (c : Cache) (force : Bool)
    (drainRet : Int) (hr : EntryInv d o r) (hc : c ∈ r.caches) :
    EntryInv d o (eio_ttc_deactivate r c force drainRet).reg := by
  obtain ⟨h1, h2, h3, h4, h5, h6, h7⟩ := hr
  by_cases hg : force = false ∧ c.mode = CacheMode.wb ∧ c.failed = false ∧ drainRet ≠ 0
  · rw [eio_ttc_deactivate, if_pos hg]
    exact ⟨h1, h2, h3, h4, h5, h6, h7⟩
  · rw [eio_ttc_deactivate, if_neg hg]
    have hcd : c.containsId = d := h1 c hc
    have hco : c.origmfn = MFn.original o := h2 c hc
    by_cases hw : c.devInfo = DevInfo.wholeDisk
    · have hsing := h3 c hc hw
      have hrem : removeByCid c.cid r.caches = [] := by
        rw [hsing, removeByCid, if_pos rfl]
      have hcond : (c.devInfo = DevInfo.wholeDisk ∨
          ¬(c.devInfo ≠ DevInfo.wholeDisk ∧
            ∃ c1 ∈ r.caches, c1.cid ≠ c.cid ∧ c1.containsId = c.containsId)) := Or.inl hw
      rw [if_pos hcond, hrem]
      refine ⟨by simp, by simp, by simp, by simp, by simp, ?_, by simp⟩
      rintro -
      dsimp only
      rw [if_pos hcd.symm]
      exact hco
    · by_cases hex : ∃ c1 ∈ r.caches, c1.cid ≠ c.cid ∧ c1.containsId = c.containsId
      · have hcond : ¬(c.devInfo = DevInfo.wholeDisk ∨
            ¬(c.devInfo ≠ DevInfo.wholeDisk ∧
              ∃ c1 ∈ r.caches, c1.cid ≠ c.cid ∧ c1.containsId = c.containsId)) := by
          rw [not_or, not_not]
          exact ⟨hw, hw, hex⟩
        rw [if_neg hcond]
        obtain ⟨c1, hm1, hne1, -⟩ := hex
        have hmem1 : c1 ∈ removeByCid c.cid r.caches :=
          mem_removeByCid_of_ne c.cid r.caches c1 hm1 hne1
        have hne : removeByCid c.cid r.caches ≠ [] := List.ne_nil_of_mem hmem1
        refine ⟨?_, ?_, ?_, ?_, ?_, ?_, ?_⟩
        · intro x hx
          exact h1 x (removeByCid_subset c.cid r.caches x hx)
        · intro x hx
          exact h2 x (removeByCid_subset c.cid r.caches x hx)
        · intro x hx hxw
          exfalso
          have hxm := removeByCid_subset c.cid r.caches x hx
          have hsing := h3 x hxm hxw
          rw [hsing, List.mem_singleton] at hc
          subst hc
          exact hw hxw
        · exact h4.sublist (List.Sublist.map Cache.cid (removeByCid_sublist c.cid r.caches))
        · intro x hx
          exact h5 x (removeByCid_subset c.cid r.caches x hx)
        · intro h
          exact absurd h hne
        · rintro -
          exact h7 (List.ne_nil_of_mem hc)
      · have hcond : (c.devInfo = DevInfo.wholeDisk ∨
            ¬(c.devInfo ≠ DevInfo.wholeDisk ∧
              ∃ c1 ∈ r.caches, c1.cid ≠ c.cid ∧ c1.containsId = c.containsId)) := by
          refine Or.inr ?_
          rintro ⟨-, hx⟩
          exact hex hx
        rw [if_pos hcond]
        have hrem : removeByCid c.cid r.caches = [] := by
          rw [List.eq_nil_iff_forall_not_mem]
          intro x hx
          have hxm := removeByCid_subset c.cid r.caches x hx
          have hxne := removeByCid_cid_ne c.cid r.caches h4 x hx
          exact hex ⟨x, hxm, hxne, by rw [h1 x hxm, h1 c hc]⟩
        rw [hrem]
        refine ⟨by simp, by simp, by simp, by simp, by simp, ?_, by simp⟩
        rintro -
        dsimp only
        rw [if_pos hcd.symm]
        exact hco

lemma entryInv_applyOp (d o : Nat) (r : Registry) (op : TtcOp)
    (hr : EntryInv d o r) (hop : opOnDevB d op = true) :
    EntryInv d o (applyOp r op) := by
  cases op with
  | act n =>
    refine entryInv_act d o r n hr ?_
    simpa [opOnDevB] using hop
  | deact cid force drainRet =>
    simp only [applyOp]
    cases hf : findByCid cid r.caches with
    | none => exact hr
    | some c =>
      exact entryInv_deact d o r c force drainRet hr
        (findByCid_some_mem cid r.caches c hf).1

lemma entryInv_runOps (d o : Nat) (r : Registry) (ops : List TtcOp)
    (hr : EntryInv d o r) (h : ∀ op ∈ ops, opOnDevB d op = true) :
    EntryInv d o (runOps r ops) := by
  induction ops generalizing r with
  | nil => exact hr
  | cons op rest ih =>
    simp only [runOps, List.foldl_cons]
    exact ih (applyOp r op)
      (entryInv_applyOp d o r op hr (h op (List.mem_cons_self op rest)))
      (fun op' hm => h op' (List.mem_cons_of_mem op hm))

/-- C3: starting from a device with no bindings whose live entry point is
the original function `o`, after any sequence of activate/deactivate
operations on bindings of device `d`, the device's queue entry point is
the interception function iff at least one binding remains, and is the
saved original iff none remains; moreover every binding in the registry
carries that one original entry point, recorded by the first activation
and reused by sibling activations. -/
theorem c3_entry_point_invariant (d o : Nat) (ops : List TtcOp)
    (h : ∀ op ∈ ops, opOnDevB d op = true) :
    ((runOps (initReg o) ops).caches ≠ [] ↔
      (runOps (initReg o) ops).mfn d = MFn.intercept) ∧
    ((runOps (initReg o) ops).caches = [] ↔
      (runOps (initReg o) ops).mfn d = MFn.original o) ∧
    (∀ c ∈ (runOps (initReg o) ops).caches, c.origmfn = MFn.original o) := by
  obtain ⟨h1, h2, h3, h4, h5, h6, h7⟩ :=
    entryInv_runOps d o (initReg o) ops (entryInv_init d o) h
  refine ⟨⟨h7, ?_⟩, ⟨h6, ?_⟩, h2⟩
  · intro hm hempty
    rw [h6 hempty] at hm
    cases hm
  · intro hm
    by_contra hne
    rw [h7 hne] at hm
    cases hm

/-- An activation request for partition bdev 2 of device 1. -/
def c3New : NewCache :=
  { bdevId := 2, containsId := 1, startSect := 100, nrSects := 100,
    mode := CacheMode.wt, failed := false, nrDirty := 0 }

/-- C3 (witness): after activating one binding on device 1, the device's
entry point is the interception function iff a binding remains (here it
does). -/
theorem c3_entry_point_invariant_witness :
    (∀ op ∈ [TtcOp.act c3New], opOnDevB 1 op = true) ∧
    ((runOps (initReg 7) [TtcOp.act c3New]).caches ≠ [] ↔
      (runOps (initReg 7) [TtcOp.act c3New]).mfn 1 = MFn.intercept) :=
  ⟨by decide, (c3_entry_point_invariant 1 7 [TtcOp.act c3New] (by decide)).1⟩

/-- The per-I/O completion tracker `struct eio_context`: the pending count
(`atomic_t count`), the sticky error, and the number of times the
completion signal has fired — `complete(io->event)` in synchronous mode,
the `callback(error, context)` call in asynchronous mode
(eio_ttc.c:628-639). -/
structure EioTracker where
  count : Int
  error : Int
  fires : Nat
deriving DecidableEq, Repr

/-- One event on a tracker: `atomic_inc(&io->count)` issued before each
physical transfer (eio_ttc.c:706, 1027), or `eio_dec_count(io, error)`
run when a transfer completes (`eio_endio`) or when the dispatcher drops
its extra reference. -/
inductive IoOp where
  | inc
  | dec (err : Int)
deriving DecidableEq, Repr

/-- `eio_dec_count` (eio_ttc.c:623-641): `if (error) io->error = error`
(so the latest nonzero error wins), then `atomic_dec_and_test` fires the
completion signal exactly when the count reaches zero.  `inc` models
`atomic_inc(&io->count)`. -/
def ioStep (t : EioTracker) : IoOp → EioTracker
  | .inc => { t with count := t.count + 1 }
  | .dec e =>
    if (if e ≠ 0 then { t with error := e } else t).count - 1 = 0 then
      { (if e ≠ 0 then { t with error := e } else t) with
        count := t.count - 1, fires := t.fires + 1 }
    else
      { (if e ≠ 0 then { t with error := e } else t) with count := t.count - 1 }

/-- A tracker as initialised by `eio_sync_io` / `eio_async_io`
(eio_ttc.c:1053, 1105): count 1 (the dispatcher's extra reference), no
error, no completion fired yet. -/
def initTracker : EioTracker := { count := 1, error := 0, fires := 0 }

/-- Run a sequence of tracker events from the freshly initialised
tracker. -/
def runIo (ops : List IoOp) : EioTracker := ops.foldl ioStep initTracker

def countInc : List IoOp → Nat
  | [] => 0
  | .inc :: rest => countInc rest + 1
  | .dec _ :: rest => countInc rest

def countDec : List IoOp → Nat
  | [] => 0
  | .inc :: rest => countDec rest
  | .dec _ :: rest => countDec rest + 1

/-- The error left in the tracker by a sequence of events under the
last-nonzero-error-wins rule of `eio_dec_count`. -/
def lastErrFrom (acc : Int) : List IoOp → Int
  | [] => acc
  | .inc :: rest => lastErrFrom acc rest
  | .dec e :: rest => lastErrFrom (if e ≠ 0 then e else acc) rest

def lastErr (ops : List IoOp) : Int := lastErrFrom 0 ops

/-- The claim-side error rule: the first nonzero error observed among the
completions. -/
def firstErr : List IoOp → Int
  | [] => 0
  | .inc :: rest => firstErr rest
  | .dec e :: rest => if e ≠ 0 then e else firstErr rest

lemma countInc_append (l1 l2 : List IoOp) :
    countInc (l1 ++ l2) = countInc l1 + countInc l2 := by
  induction l1 with
  | nil => simp [countInc]
  | cons op rest ih =>
    cases op
    all_goals simp [countInc, ih]
    all_goals omega

lemma countDec_append (l1 l2 : List IoOp) :
    countDec (l1 ++ l2) = countDec l1 + countDec l2 := by
  induction l1 with
  | nil => simp [countDec]
  | cons op rest ih =>
    cases op
    all_goals simp [countDec, ih]
    all_goals omega

lemma ioStep_dec_count (t : EioTracker) (e : Int) :
    (ioStep t (IoOp.dec e)).count = t.count - 1 := by
  rw [ioStep]
  split_ifs <;> rfl

lemma ioStep_dec_error (t : EioTracker) (e : Int) :
    (ioStep t (IoOp.dec e)).error = if e ≠ 0 then e else t.error := by
  rw [ioStep]
  split_ifs <;> rfl

lemma runIo_from_count (t : EioTracker) (ops : List IoOp) :
    (ops.foldl ioStep t).count = t.count + (countInc ops : Int) - (countDec ops : Int) := by
  induction ops generalizing t with
  | nil => simp [countInc, countDec]
  | cons op rest ih =>
    rw [List.foldl_cons, ih]
    cases op with
    | inc =>
      simp only [ioStep, countInc, countDec]
      push_cast
      ring
    | dec e =>
      rw [ioStep_dec_count]
      simp only [countInc, countDec]
      push_cast
      ring

lemma runIo_from_error (t : EioTracker) (ops : List IoOp) :
    (ops.foldl ioStep t).error = lastErrFrom t.error ops := by
  induction ops generalizing t with
  | nil => rfl
  | cons op rest ih =>
    rw [List.foldl_cons, ih]
    cases op with
    | inc => rfl
    | dec e =>
      rw [lastErrFrom]
      by_cases he : e ≠ 0
      · rw [ioStep_dec_error, if_pos he]
      · rw [ioStep_dec_error, if_neg he]

lemma runIo_from_no_fire (ops : List IoOp) (t : EioTracker)
    (h : ∀ j, j ≤ ops.length →
      1 ≤ t.count + (countInc (ops.take j) : Int) - (countDec (ops.take j) : Int)) :
    (ops.foldl ioStep t).fires = t.fires := by
  induction ops generalizing t with
  | nil => rfl
  | cons op rest ih =>
    rw [List.foldl_cons]
    have hstep : (ioStep t op).fires = t.fires := by
      cases op with
      | inc => rfl
      | dec e =>
        have h1 := h 1 (by simp)
        simp only [List.take_succ_cons, List.take_zero, countInc, countDec] at h1
        rw [ioStep]
        have hc : (if e ≠ 0 then { t with error := e } else t).count = t.count := by
          split_ifs <;> rfl
        rw [if_neg (by rw [hc]; omega)]
        split_ifs <;> rfl
    have hcnt : (ioStep t op).count = t.count + (countInc [op] : Int) - (countDec [op] : Int) := by
      cases op with
      | inc => simp [ioStep, countInc, countDec]
      | dec e => rw [ioStep_dec_count]; simp [countInc, countDec]
    rw [ih (ioStep t op) ?_, hstep]
    intro j hj
    have hj1 := h (j + 1) (by simp; omega)
    simp only [List.take_succ_cons] at hj1
    rw [hcnt]
    cases op with
    | inc =>
      simp only [countInc, countDec] at hj1 ⊢
      push_cast at hj1 ⊢
      omega
    | dec e =>
      simp only [countInc, countDec] at hj1 ⊢
      push_cast at hj1 ⊢
      omega

/-- C2 (amended): for a dispatched logical I/O split into K physical
transfers, the tracker sees K increments and K+1 decrements (the K
transfer completions plus the dispatcher dropping its extra reference);
in any order in which no decrement overtakes the event it answers (every
proper prefix has at most as many decrements as increments — true of
every real schedule, since each transfer's completion follows its own
increment and the dispatcher's decrement follows all increments), the
completion signal fires exactly once, exactly at the step where the count
reaches zero (the last one), and the error reported is the last-observed
nonzero error among the decrements, or zero if all succeeded. -/
theorem c2_dec_count_completion (ops : List IoOp) (K : Nat)
    (hinc : countInc ops = K) (hdec : countDec ops = K + 1)
    (hpre : ∀ j, j < ops.length → countDec (ops.take j) ≤ countInc (ops.take j)) :
    (runIo ops).fires = 1 ∧
    (runIo ops).count = 0 ∧
    (runIo ops).error = lastErr ops ∧
    (∀ j, j < ops.length → (runIo (ops.take j)).fires = 0) := by
  have hne : ops ≠ [] := by
    intro h
    rw [h] at hdec
    simp [countDec] at hdec
  obtain ⟨as, a, hsplit⟩ : ∃ as a, ops = as ++ [a] :=
    ⟨ops.dropLast, ops.getLast hne, (List.dropLast_append_getLast hne).symm⟩
  subst hsplit
  have htake_as : ∀ j, j ≤ as.length → (as ++ [a]).take j = as.take j := by
    intro j hj
    exact List.take_append_of_le_length hj
  have hpre_as : ∀ j, j ≤ as.length → countDec (as.take j) ≤ countInc (as.take j) := by
    intro j hj
    have := hpre j (by simp; omega)
    rwa [htake_as j hj] at this
  have hcnt_as : countDec as ≤ countInc as := by
    have := hpre_as as.length (le_refl _)
    rwa [List.take_length] at this
  obtain ⟨e, rfl⟩ : ∃ e, a = IoOp.dec e := by
    cases a with
    | inc =>
      exfalso
      rw [countInc_append] at hinc
      rw [countDec_append] at hdec
      simp [countInc, countDec] at hinc hdec
      omega
    | dec e => exact ⟨e, rfl⟩
  have h1 : countInc as = K := by
    rw [countInc_append] at hinc
    simpa [countInc] using hinc
  have h2 : countDec as = K := by
    rw [countDec_append] at hdec
    simp [countDec] at hdec
    omega
  have hcount_as : (runIo as).count = 1 := by
    rw [runIo, runIo_from_count, h1, h2]
    simp [initTracker]
  have hprefix : ∀ j, j ≤ as.length → (runIo (as.take j)).fires = 0 := by
    intro j hj
    have hside : ∀ i, i ≤ (as.take j).length →
        1 ≤ initTracker.count + (countInc ((as.take j).take i) : Int) -
          (countDec ((as.take j).take i) : Int) := by
      intro i hi
      rw [List.take_take]
      have hij : min i j = i := by
        rw [List.length_take] at hi
        omega
      rw [hij]
      have := hpre_as i (by rw [List.length_take] at hi; omega)
      simp only [initTracker]
      omega
    rw [runIo]
    exact runIo_from_no_fire (as.take j) initTracker hside
  have hfires_as : (runIo as).fires = 0 := by
    have := hprefix as.length (le_refl _)
    rwa [List.take_length] at this
  have hrun : runIo (as ++ [IoOp.dec e]) = ioStep (runIo as) (IoOp.dec e) := by
    rw [runIo, List.foldl_append, List.foldl_cons, List.foldl_nil]
    rfl
  have hstep_fires : (ioStep (runIo as) (IoOp.dec e)).fires = 1 := by
    rw [ioStep]
    have hc : (if e ≠ 0 then { runIo as with error := e } else runIo as).count = 1 := by
      split_ifs <;> exact hcount_as
    rw [if_pos (by rw [hc]; ring)]
    simp [hfires_as]
  have hstep_count : (ioStep (runIo as) (IoOp.dec e)).count = 0 := by
    rw [ioStep_dec_count, hcount_as]
    ring
  refine ⟨by rw [hrun]; exact hstep_fires, by rw [hrun]; exact hstep_count, ?_, ?_⟩
  · rw [runIo, runIo_from_error]
    rfl
  · intro j hj
    rw [List.length_append, List.length_singleton] at hj
    have hj1 : j ≤ as.length := by omega
    rw [htake_as j hj1]
    exact hprefix j hj1

/-- The schedule of the C2 counterexample: two transfers are issued, they
complete with errors -5 then -7, and the dispatcher drops its extra
reference. -/
def c2Ops : List IoOp :=
  [IoOp.inc, IoOp.inc, IoOp.dec (-5), IoOp.dec (-7), IoOp.dec 0]

/-- C2 (counterexample): the claim says the error reported is the
first-observed error among the transfers.  `eio_dec_count`
(eio_ttc.c:625-626) overwrites `io->error` on every nonzero completion
error, so on the schedule `c2Ops` the tracker completes with -7, the last
nonzero error, not -5, the first-observed one. -/
theorem c2_dec_count_last_error_counterexample :
    firstErr c2Ops = -5 ∧ (runIo c2Ops).error = -7 ∧
    (runIo c2Ops).error ≠ firstErr c2Ops ∧ (runIo c2Ops).fires = 1 := by
  refine ⟨by decide, by decide, by decide, by decide⟩

/-- The schedule of the C2 witness: one transfer failing with error 3. -/
def c2OpsW : List IoOp := [IoOp.inc, IoOp.dec 3, IoOp.dec 0]

/-- C2 (witness): the completion theorem applied to a one-transfer
schedule — the signal fires exactly once. -/
theorem c2_dec_count_completion_witness :
    countInc c2OpsW = 1 ∧ countDec c2OpsW = 2 ∧
    (∀ j, j < c2OpsW.length → countDec (c2OpsW.take j) ≤ countInc (c2OpsW.take j)) ∧
    (runIo c2OpsW).fires = 1 :=
  ⟨by decide, by decide, by decide,
   (c2_dec_count_completion c2OpsW 1 (by decide) (by decide) (by decide)).1⟩

/-- The action taken by `eio_make_request_fn` after the classification
scan (eio_ttc.c:426-478): an overlapping discard is ended immediately
with -EOPNOTSUPP and nothing else happens; any other overlap goes to
`eio_overlap_split_bio`; a cached I/O is handed to `eio_map`; anything
else falls through to the original entry point. -/
inductive RouteAction where
  | completeError (e : Int)
  | overlapSplit
  | mapToCache (c : Cache)
  | passthrough
deriving DecidableEq, Repr

/-- The dispatch of `eio_make_request_fn` (eio_ttc.c:426-478) keyed on the
scan verdict. -/
def eio_make_request_action (cs : List Cache) (b : BioRec) : RouteAction :=
  match scanList b cs with
  | .toCache c => .mapToCache c
  | .split =>
    if b.isDiscard then .completeError errOPNOTSUPP else .overlapSplit
  | .passthrough => .passthrough

/-- C6: every discard-type I/O classified as overlapping is completed
immediately with the unsupported-operation error -EOPNOTSUPP
(eio_ttc.c:429-433); it is never handed to the overlap splitter, so no
sub-I/Os are created or submitted. -/
theorem c6_discard_overlap_rejected (cs : List Cache) (b : BioRec)
    (hs : scanList b cs = Decision.split) (hd : b.isDiscard = true) :
    eio_make_request_action cs b = RouteAction.completeError errOPNOTSUPP ∧
    eio_make_request_action cs b ≠ RouteAction.overlapSplit := by
  have h : eio_make_request_action cs b = RouteAction.completeError errOPNOTSUPP := by
    rw [eio_make_request_action, hs, if_pos hd]
  exact ⟨h, by rw [h]; intro hcon; cases hcon⟩

/-- A discard I/O [150,249] crossing the boundary of the binding
[100,199]. -/
def c6Bio : BioRec :=
  { bdevId := 1, containsId := 1, sector := 150, nsect := 100, isDiscard := true }

/-- C6 (witness): the overlapping discard on the binding [100,199] is
rejected with -EOPNOTSUPP. -/
theorem c6_discard_overlap_rejected_witness :
    scanList c6Bio [c1CacheA] = Decision.split ∧ c6Bio.isDiscard = true ∧
    eio_make_request_action [c1CacheA] c6Bio =
      RouteAction.completeError errOPNOTSUPP :=
  ⟨by decide, by decide,
   (c6_discard_overlap_rejected [c1CacheA] c6Bio (by decide) (by decide)).1⟩

/-- `struct bio_container` (overlap-split bookkeeping): the holder count
(`bc_holdcount`), the accumulated error (`bc_error`), and the number of
times the original I/O has been completed
(`EIO_BIO_ENDIO(bc->bc_bio, bc->bc_error)` at eio_ttc.c:1964). -/
structure BioContainer where
  holdcount : Int
  error : Int
  origCompleted : Nat
deriving DecidableEq, Repr

/-- The container created by `eio_overlap_split_bio` (eio_ttc.c:1886-1888)
for an I/O of `n` sectors (`nbios = EIO_BIO_BI_SIZE(bio) >> SECTOR_SHIFT`):
holder count `n`, no error, original not yet completed. -/
def initContainer (n : Nat) : BioContainer :=
  { holdcount := (n : Int), error := 0, origCompleted := 0 }

/-- The per-sector sub-I/Os built by the loop at eio_ttc.c:1891-1898 via
`eio_split_new_bio`: one single-sector request per sector of the
original, at consecutive sectors starting from the original's start
sector (`snum`).  The page/bvec bookkeeping of `eio_split_new_bio`
concerns memory layout and is not modelled. -/
def splitSubBios (b : BioRec) : List BioRec :=
  (List.range b.nsect).map (fun i => { b with sector := b.sector + i, nsect := 1 })

/-- The re-submission of every sub-I/O through the full routing decision
(`eio_make_request_fn(q, bioptr[i])`, eio_ttc.c:1909-1910). -/
def resubmitActions (cs : List Cache) (b : BioRec) : List RouteAction :=
  (splitSubBios b).map (eio_make_request_action cs)

/-- `eio_split_endio` (eio_ttc.c:1954-1968): `if (error) bc->bc_error =
error` (latest nonzero error wins), then `atomic_dec_and_test` completes
the original I/O with the recorded error exactly when the holder count
reaches zero. -/
def splitEndioStep (bc : BioContainer) (e : Int) : BioContainer :=
  if (if e ≠ 0 then { bc with error := e } else bc).holdcount - 1 = 0 then
    { (if e ≠ 0 then { bc with error := e } else bc) with
      holdcount := bc.holdcount - 1, origCompleted := bc.origCompleted + 1 }
  else
    { (if e ≠ 0 then { bc with error := e } else bc) with
      holdcount := bc.holdcount - 1 }

/-- Run the completions of all sub-I/Os (with their errors) against the
container of an `n`-sector split. -/
def runSplit (n : Nat) (errs : List Int) : BioContainer :=
  errs.foldl splitEndioStep (initContainer n)

/-- The error accumulated by `eio_split_endio` over a completion
sequence: the last nonzero one. -/
def lastIntErrFrom (acc : Int) : List Int → Int
  | [] => acc
  | e :: rest => lastIntErrFrom (if e ≠ 0 then e else acc) rest

/-- The claim-side error rule: the first nonzero error observed. -/
def firstIntErr : List Int → Int
  | [] => 0
  | e :: rest => if e ≠ 0 then e else firstIntErr rest

lemma splitEndioStep_count (bc : BioContainer) (e : Int) :
    (splitEndioStep bc e).holdcount = bc.holdcount - 1 := by
  rw [splitEndioStep]
  split_ifs <;> rfl

lemma splitEndioStep_error (bc : BioContainer) (e : Int) :
    (splitEndioStep bc e).error = if e ≠ 0 then e else bc.error := by
  rw [splitEndioStep]
  split_ifs <;> rfl

lemma splitRun_count (bc : BioContainer) (errs : List Int) :
    (errs.foldl splitEndioStep bc).holdcount = bc.holdcount - errs.length := by
  induction errs generalizing bc with
  | nil => simp
  | cons e rest ih =>
    rw [List.foldl_cons, ih, splitEndioStep_count]
    simp only [List.length_cons]
    push_cast
    ring

lemma splitRun_error (bc : BioContainer) (errs : List Int) :
    (errs.foldl splitEndioStep bc).error = lastIntErrFrom bc.error errs := by
  induction errs generalizing bc with
  | nil => rfl
  | cons e rest ih =>
    rw [List.foldl_cons, ih, lastIntErrFrom]
    by_cases he : e ≠ 0
    · rw [splitEndioStep_error, if_pos he]
    · rw [splitEndioStep_error, if_neg he]

lemma splitRun_no_fire (errs : List Int) (bc : BioContainer)
    (h : (errs.length : Int) < bc.holdcount) :
    (errs.foldl splitEndioStep bc).origCompleted = bc.origCompleted := by
  induction errs generalizing bc with
  | nil => rfl
  | cons e rest ih =>
    rw [List.foldl_cons]
    have hc : (if e ≠ 0 then { bc with error := e } else bc).holdcount = bc.holdcount := by
      split_ifs <;> rfl
    have hlen : ((e :: rest).length : Int) = rest.length + 1 := by push_cast [List.length_cons]; ring
    have hstep : (splitEndioStep bc e).origCompleted = bc.origCompleted := by
      rw [splitEndioStep, if_neg (by rw [hc]; rw [hlen] at h; omega)]
      split_ifs <;> rfl
    have hcnt : (splitEndioStep bc e).holdcount = bc.holdcount - 1 := splitEndioStep_count bc e
    rw [ih (splitEndioStep bc e) (by rw [hcnt]; rw [hlen] at h; omega), hstep]

/-- C5 (amended): for a non-discard I/O of N ≥ 1 sectors classified as
overlapping, the splitter creates exactly N single-sector sub-I/Os at
consecutive sectors sharing one holder-count container initialised to N;
each sub-I/O is re-submitted through the full routing decision; each
completion decrements the holder count recording the latest nonzero error
observed; and the original I/O is completed exactly once — at the moment
the holder count reaches zero — with that recorded error (zero if
none). -/
theorem c5_overlap_split_spec (b : BioRec) (cs : List Cache) (errs : List Int)
    (hn : 1 ≤ b.nsect) (hlen : errs.length = b.nsect) :
    (splitSubBios b).length = b.nsect ∧
    (∀ i, i < b.nsect →
      (splitSubBios b)[i]? = some { b with sector := b.sector + i, nsect := 1 }) ∧
    (initContainer b.nsect).holdcount = (b.nsect : Int) ∧
    resubmitActions cs b = (splitSubBios b).map (eio_make_request_action cs) ∧
    (runSplit b.nsect errs).origCompleted = 1 ∧
    (runSplit b.nsect errs).holdcount = 0 ∧
    (runSplit b.nsect errs).error = lastIntErrFrom 0 errs ∧
    (∀ j, j < b.nsect →
      ((errs.take j).foldl splitEndioStep (initContainer b.nsect)).origCompleted = 0) := by
  have hne : errs ≠ [] := by
    intro h
    rw [h] at hlen
    simp at hlen
    omega
  obtain ⟨es, e, hsplit⟩ : ∃ es e, errs = es ++ [e] :=
    ⟨errs.dropLast, errs.getLast hne, (List.dropLast_append_getLast hne).symm⟩
  subst hsplit
  have hlen_es : es.length + 1 = b.nsect := by simpa using hlen
  have hcnt_es : (es.foldl splitEndioStep (initContainer b.nsect)).holdcount = 1 := by
    rw [splitRun_count]
    simp only [initContainer]
    omega
  have hoc_es : (es.foldl splitEndioStep (initContainer b.nsect)).origCompleted = 0 :=
    splitRun_no_fire es (initContainer b.nsect) (by simp only [initContainer]; omega)
  have hrun : runSplit b.nsect (es ++ [e]) =
      splitEndioStep (es.foldl splitEndioStep (initContainer b.nsect)) e := by
    rw [runSplit, List.foldl_append, List.foldl_cons, List.foldl_nil]
  refine ⟨by simp [splitSubBios], ?_, rfl, rfl, ?_, ?_, ?_, ?_⟩
  · intro i hi
    simp [splitSubBios, List.getElem?_range, hi]
  · rw [hrun, splitEndioStep]
    have hc2 : (if e ≠ 0 then
        { es.foldl splitEndioStep (initContainer b.nsect) with error := e }
        else es.foldl splitEndioStep (initContainer b.nsect)).holdcount = 1 := by
      split_ifs <;> exact hcnt_es
    rw [if_pos (by rw [hc2]; ring)]
    simp [hoc_es]
  · rw [hrun, splitEndioStep_count, hcnt_es]
    ring
  · exact splitRun_error (initContainer b.nsect) (es ++ [e])
  · intro j hj
    refine splitRun_no_fire ((es ++ [e]).take j) (initContainer b.nsect) ?_
    rw [List.length_take]
    simp only [initContainer]
    have hl : (es ++ [e]).length = b.nsect := hlen
    omega

/-- The completion errors of the C5 counterexample: the two sub-I/Os fail
with -5 then -7. -/
def c5Errs : List Int := [-5, -7]

/-- C5 (counterexample): the claim says the first nonzero error observed
is recorded.  `eio_split_endio` (eio_ttc.c:1960-1961) overwrites
`bc->bc_error` on every nonzero completion error, so a two-sector split
whose sub-I/Os fail with -5 then -7 completes the original with -7, the
last nonzero error, not -5. -/
theorem c5_split_last_error_counterexample :
    firstIntErr c5Errs = -5 ∧ (runSplit 2 c5Errs).error = -7 ∧
    (runSplit 2 c5Errs).error ≠ firstIntErr c5Errs ∧
    (runSplit 2 c5Errs).origCompleted = 1 := by
  refine ⟨by decide, by decide, by decide, by decide⟩

/-- A three-sector non-discard I/O used by the C5 witness. -/
def c5Bio : BioRec :=
  { bdevId := 1, containsId := 1, sector := 10, nsect := 3, isDiscard := false }

/-- The completion errors of the C5 witness: the middle sub-I/O fails. -/
def c5ErrsW : List Int := [0, 4, 0]

/-- C5 (witness): the splitter theorem applied to a three-sector I/O —
the original is completed exactly once. -/
theorem c5_overlap_split_spec_witness :
    1 ≤ c5Bio.nsect ∧ c5ErrsW.length = c5Bio.nsect ∧
    (runSplit c5Bio.nsect c5ErrsW).origCompleted = 1 :=
  ⟨by decide, by decide,
   (c5_overlap_split_spec c5Bio [c1CacheA] c5ErrsW (by decide) (by decide)).2.2.2.2.1⟩

/-- The fields of `struct cache_c` read by the entry phase of
`eio_cache_edit` (eio_ttc.c:1283-1317).  `mode` and `reqPolicy` use the
numeric codes of eio.h (nonzero; a zero edit argument means "leave
unchanged").  `shutdownInProg` and `modInProg` are the
`CACHE_FLAGS_SHUTDOWN_INPROG` / `CACHE_FLAGS_MOD_INPROG` bits of
`cache_flags`; `failed` / `degraded` are `CACHE_FAILED_IS_SET` /
`CACHE_DEGRADED_IS_SET`. -/
structure EditCache where
  mode : Nat
  reqPolicy : Nat
  shutdownInProg : Bool
  modInProg : Bool
  failed : Bool
  degraded : Bool
deriving DecidableEq, Repr

/-- The distinct exits of the entry phase of `eio_cache_edit` (all error
exits return -EINVAL; the constructors record the site). -/
inductive EditEntry where
  | noChange
  | errFailedDegraded
  | errShutdown
  | errModInProg
  | proceed
deriving DecidableEq, Repr

/-- Which lock guards a check. -/
inductive LockKind where
  | bindingSpinLock
  | shardRwLock
deriving DecidableEq, Repr

/-- The lock held around the SHUTDOWN_INPROG / MOD_INPROG flag checks of
`eio_cache_edit`: `spin_lock_irqsave(&dmc->cache_spin_lock, ...)` at
eio_ttc.c:1300 and 1316 — the binding's own spin lock, not the registry
shard lock `eio_ttc_lock` (which is taken only later, at line 1357). -/
def editFlagCheckLock : LockKind := LockKind.bindingSpinLock

/-- The entry phase of `eio_cache_edit` (eio_ttc.c:1283-1317), after the
name lookup: an edit requesting no change returns success immediately; a
failed or degraded cache is rejected; then, under the binding's spin
lock, SHUTDOWN_INPROG and MOD_INPROG each reject the edit, and otherwise
MOD_INPROG is set and the edit proceeds. -/
def eio_cache_edit_entry (c : EditCache) (mode policy : Nat) :
    EditEntry × EditCache :=
  if c.mode = mode ∧ c.reqPolicy = policy then (EditEntry.noChange, c)
  else if c.failed ∨ c.degraded then (EditEntry.errFailedDegraded, c)
  else if c.shutdownInProg then (EditEntry.errShutdown, c)
  else if c.modInProg then (EditEntry.errModInProg, c)
  else (EditEntry.proceed, { c with modInProg := true })

/-- A healthy binding in mode 2, policy 1, with MOD_INPROG set. -/
def c8Cache : EditCache :=
  { mode := 2, reqPolicy := 1, shutdownInProg := false, modInProg := true,
    failed := false, degraded := false }

/-- C8 (counterexample): the claim says every edit call on a binding with
MODIFY_IN_PROGRESS set returns the busy error.  But the no-change check
(eio_ttc.c:1289-1290) runs before any flag is looked at: an edit
requesting the binding's current mode and policy returns 0 (success)
even while MOD_INPROG is set. -/
theorem c8_edit_noop_counterexample :
    c8Cache.modInProg = true ∧
    (eio_cache_edit_entry c8Cache 2 1).1 = EditEntry.noChange ∧
    (eio_cache_edit_entry c8Cache 2 1).1 ≠ EditEntry.errModInProg ∧
    (eio_cache_edit_entry c8Cache 2 1).1 ≠ EditEntry.errShutdown := by
  refine ⟨by decide, by decide, by decide, by decide⟩

/-- C8 (amended): every edit call that requests an actual change on a
non-failed, non-degraded binding whose SHUTDOWN_IN_PROGRESS or
MODIFY_IN_PROGRESS flag is set returns a busy error (the shutdown site
when SHUTDOWN_IN_PROGRESS is set, otherwise the concurrent-edit site)
without changing the binding's mode, policy, or flags; the flag check
runs under the binding's own spin lock, not the registry shard lock. -/
theorem c8_edit_busy_spec (c : EditCache) (mode policy : Nat)
    (hchange : ¬(c.mode = mode ∧ c.reqPolicy = policy))
    (hok1 : c.failed = false) (hok2 : c.degraded = false)
    (hflag : c.shutdownInProg = true ∨ c.modInProg = true) :
    ((c.shutdownInProg = true →
       (eio_cache_edit_entry c mode policy).1 = EditEntry.errShutdown) ∧
     (c.shutdownInProg = false →
       (eio_cache_edit_entry c mode policy).1 = EditEntry.errModInProg)) ∧
    (eio_cache_edit_entry c mode policy).2 = c ∧
    editFlagCheckLock = LockKind.bindingSpinLock := by
  rw [eio_cache_edit_entry, if_neg hchange,
    if_neg (by rw [hok1, hok2]; simp)]
  by_cases hs : c.shutdownInProg = true
  · rw [if_pos hs]
    exact ⟨⟨fun _ => rfl, fun h => by rw [hs] at h; cases h⟩, rfl, rfl⟩
  · have hs' : c.shutdownInProg = false := by
      cases hcase : c.shutdownInProg
      · rfl
      · exact absurd hcase hs
    have hm : c.modInProg = true := by
      rcases hflag with h | h
      · exact absurd h hs
      · exact h
    rw [if_neg hs, if_pos hm]
    exact ⟨⟨fun h => absurd h hs, fun _ => rfl⟩, rfl, rfl⟩

/-- A healthy binding in mode 2, policy 1, with MOD_INPROG set (as
`c8Cache`), asked to switch to mode 3. -/
theorem c8_edit_busy_spec_witness :
    ¬(c8Cache.mode = 3 ∧ c8Cache.reqPolicy = 1) ∧
    c8Cache.modInProg = true ∧
    (eio_cache_edit_entry c8Cache 3 1).1 = EditEntry.errModInProg :=
  ⟨by decide, by decide,
   ((c8_edit_busy_spec c8Cache 3 1 (by decide) rfl rfl (Or.inr rfl)).1.2 rfl)⟩

/-- The policy-engine state of a binding as touched by
`eio_policy_switch`: the policy operations pointer (`dmc->policy_ops`, a
numeric id standing for the allocation), the requested-policy field
(`dmc->req_policy`), and the log of freed operations structures
(`eio_policy_free`). -/
structure PolicyState where
  policyOps : Nat
  reqPolicy : Nat
  freed : List Nat
deriving DecidableEq, Repr

/-- The behaviour of the external policy-engine collaborators during one
switch: the value `dmc->policy_ops` holds after `eio_policy_init` and the
results of `eio_policy_init`, `eio_repl_blk_init`, `eio_repl_sets_init`. -/
structure PolicyEnv where
  opsAfterInit : Nat
  initRet : Int
  blkRet : Int
  setsRet : Int
deriving DecidableEq, Repr

/-- The `out:` label of `eio_policy_switch` (eio_ttc.c:1512-1515):
`if (dmc->policy_ops != old_policy_ops) eio_policy_free(dmc);
dmc->policy_ops = old_policy_ops;`. -/
def policyRollback (stNew : PolicyState) (oldOps : Nat) : PolicyState :=
  { stNew with
    policyOps := oldOps,
    freed := if stNew.policyOps ≠ oldOps then stNew.freed ++ [stNew.policyOps]
      else stNew.freed }

/-- `eio_policy_switch` (eio_ttc.c:1482-1517): reinitialise the policy
engine (`eio_policy_init`, `eio_repl_blk_init`, `eio_repl_sets_init`); on
any failure roll back to the saved `old_policy_ops`, freeing the newly
installed structures, and return the error (the init error, or -ENOMEM
for the two allocation steps); on success push the LRU blocks, update
`req_policy` and return 0. -/
def eio_policy_switch (st : PolicyState) (policy : Nat) (env : PolicyEnv) :
    PolicyState × Int :=
  if env.initRet ≠ 0 then
    (policyRollback { st with policyOps := env.opsAfterInit } st.policyOps, env.initRet)
  else if env.blkRet ≠ 0 then
    (policyRollback { st with policyOps := env.opsAfterInit } st.policyOps, errNOMEM)
  else if env.setsRet ≠ 0 then
    (policyRollback { st with policyOps := env.opsAfterInit } st.policyOps, errNOMEM)
  else
    ({ st with policyOps := env.opsAfterInit, reqPolicy := policy }, 0)

/-- C9: if any step of reinitialising the policy-engine structures fails,
the switch does not commit — the previous policy operations pointer is
restored, the newly installed operations structure (if any) is freed, the
requested-policy field is unchanged, and a nonzero error is returned; on
success the requested-policy field is updated, the new operations stay
installed, nothing is freed, and zero is returned. -/
theorem c9_policy_switch_rollback (st : PolicyState) (policy : Nat) (env : PolicyEnv) :
    (env.initRet ≠ 0 ∨ env.blkRet ≠ 0 ∨ env.setsRet ≠ 0 →
      (eio_policy_switch st policy env).1.policyOps = st.policyOps ∧
      (eio_policy_switch st policy env).1.reqPolicy = st.reqPolicy ∧
      (eio_policy_switch st policy env).2 ≠ 0 ∧
      (env.opsAfterInit ≠ st.policyOps →
        (eio_policy_switch st policy env).1.freed = st.freed ++ [env.opsAfterInit]) ∧
      (env.opsAfterInit = st.policyOps →
        (eio_policy_switch st policy env).1.freed = st.freed)) ∧
    (env.initRet = 0 → env.blkRet = 0 → env.setsRet = 0 →
      (eio_policy_switch st policy env).1.reqPolicy = policy ∧
      (eio_policy_switch st policy env).1.policyOps = env.opsAfterInit ∧
      (eio_policy_switch st policy env).2 = 0 ∧
      (eio_policy_switch st policy env).1.freed = st.freed) := by
  have hrb1 : (policyRollback { st with policyOps := env.opsAfterInit }
      st.policyOps).policyOps = st.policyOps := rfl
  have hrb2 : (policyRollback { st with policyOps := env.opsAfterInit }
      st.policyOps).reqPolicy = st.reqPolicy := rfl
  have hrb3 : env.opsAfterInit ≠ st.policyOps →
      (policyRollback { st with policyOps := env.opsAfterInit }
        st.policyOps).freed = st.freed ++ [env.opsAfterInit] := by
    intro h
    rw [policyRollback]
    simp only [if_pos h]
  have hrb4 : env.opsAfterInit = st.policyOps →
      (policyRollback { st with policyOps := env.opsAfterInit }
        st.policyOps).freed = st.freed := by
    intro h
    rw [policyRollback]
    simp only [h]
    rw [if_neg (by intro hcon; exact hcon rfl)]
  by_cases h1 : env.initRet ≠ 0
  · rw [eio_policy_switch, if_pos h1]
    exact ⟨fun _ => ⟨hrb1, hrb2, h1, hrb3, hrb4⟩,
           fun h0 => absurd h0 h1⟩
  · by_cases h2 : env.blkRet ≠ 0
    · rw [eio_policy_switch, if_neg h1, if_pos h2]
      refine ⟨fun _ => ⟨hrb1, hrb2, (by decide : errNOMEM ≠ (0:Int)), hrb3, hrb4⟩, ?_⟩
      intro _ h0
      exact absurd h0 h2
    · by_cases h3 : env.setsRet ≠ 0
      · rw [eio_policy_switch, if_neg h1, if_neg h2, if_pos h3]
        refine ⟨fun _ => ⟨hrb1, hrb2, (by decide : errNOMEM ≠ (0:Int)), hrb3, hrb4⟩, ?_⟩
        intro _ _ h0
        exact absurd h0 h3
      · rw [eio_policy_switch, if_neg h1, if_neg h2, if_neg h3]
        refine ⟨?_, fun _ _ _ => ⟨rfl, rfl, rfl, rfl⟩⟩
        rintro (h | h | h)
        · exact absurd h h1
        · exact absurd h h2
        · exact absurd h h3

/-- The policy state of the C9 witness: ops 3, policy 1. -/
def c9St : PolicyState := { policyOps := 3, reqPolicy := 1, freed := [] }

/-- The environment of the C9 witness: init installs ops 5 and succeeds,
but the cache-block allocation fails. -/
def c9Env : PolicyEnv := { opsAfterInit := 5, initRet := 0, blkRet := -12, setsRet := 0 }

/-- C9 (witness): a failing block-allocation step rolls the switch back —
the old operations pointer is restored, the requested policy is
unchanged, and the freshly installed ops structure 5 is freed. -/
theorem c9_policy_switch_rollback_witness :
    c9Env.blkRet ≠ 0 ∧
    ((eio_policy_switch c9St 2 c9Env).1.policyOps = c9St.policyOps ∧
     (eio_policy_switch c9St 2 c9Env).1.reqPolicy = c9St.reqPolicy ∧
     (eio_policy_switch c9St 2 c9Env).2 ≠ 0 ∧
     (c9Env.opsAfterInit ≠ c9St.policyOps →
       (eio_policy_switch c9St 2 c9Env).1.freed = c9St.freed ++ [c9Env.opsAfterInit]) ∧
     (c9Env.opsAfterInit = c9St.policyOps →
       (eio_policy_switch c9St 2 c9Env).1.freed = c9St.freed)) :=
  ⟨by decide,
   (c9_policy_switch_rollback c9St 2 c9Env).1 (Or.inr (Or.inl (by decide)))⟩

/-- The cached branch of `eio_make_request_fn` (eio_ttc.c:436-451): if
the bio's start sector is nonzero it is rebased by subtracting the
binding's partition start (`EIO_BIO_BI_SECTOR(bio) -= dmc->dev_start_sect`
after the `EIO_ASSERT` that it is not below the partition start); the bio
is then handed to `eio_map`, whose result is the external parameter
`mapRet`; on a nonzero result the start sector is restored by adding the
partition start back.  Returns (the bio as handed to `eio_map`, the bio
after the branch, the result). -/
def eio_map_rebase (c : Cache) (b : BioRec) (mapRet : Int) : BioRec × BioRec × Int :=
  if b.sector ≠ 0 then
    if mapRet ≠ 0 then
      ({ b with sector := b.sector - c.devStartSect },
       { b with sector := b.sector - c.devStartSect + c.devStartSect }, mapRet)
    else
      ({ b with sector := b.sector - c.devStartSect },
       { b with sector := b.sector - c.devStartSect }, 0)
  else
    if mapRet ≠ 0 then
      (b, { b with sector := b.sector + c.devStartSect }, mapRet)
    else
      (b, b, 0)

/-- C10: for every I/O routed to a cached binding with a nonzero start
sector (necessarily at or past the partition start), the bio handed to
`eio_map` has its start sector rebased by the partition start with all
other fields unchanged, and if `eio_map` fails, the bio is restored to
exactly its original state (absolute start sector, all other fields
unchanged) with the error propagated. -/
theorem c10_sector_rebase_restore (c : Cache) (b : BioRec) (mapRet : Int)
    (h0 : b.sector ≠ 0) (h1 : c.devStartSect ≤ b.sector) :
    (eio_map_rebase c b mapRet).1 = { b with sector := b.sector - c.devStartSect } ∧
    (mapRet ≠ 0 → (eio_map_rebase c b mapRet).2.1 = b ∧
      (eio_map_rebase c b mapRet).2.2 = mapRet) ∧
    (mapRet = 0 → (eio_map_rebase c b mapRet).2.1 =
      { b with sector := b.sector - c.devStartSect } ∧
      (eio_map_rebase c b mapRet).2.2 = 0) := by
  have hsub : b.sector - c.devStartSect + c.devStartSect = b.sector :=
    Nat.sub_add_cancel h1
  by_cases hm : mapRet ≠ 0
  · rw [eio_map_rebase, if_pos h0, if_pos hm]
    refine ⟨rfl, fun _ => ⟨?_, rfl⟩, fun h => absurd h (by simpa using hm)⟩
    rw [hsub]
  · have hm0 : mapRet = 0 := by omega
    rw [eio_map_rebase, if_pos h0, if_neg hm]
    exact ⟨rfl, fun h => absurd h hm, fun _ => ⟨rfl, rfl⟩⟩

/-- An I/O at absolute sector 150 on the partition starting at 100. -/
def c10Bio : BioRec :=
  { bdevId := 2, containsId := 1, sector := 150, nsect := 8, isDiscard := false }

/-- C10 (witness): with `eio_map` failing with -5, the bio handed to the
cache engine starts at sector 50 (= 150 - 100) and the bio is restored to
its original state afterwards. -/
theorem c10_sector_rebase_restore_witness :
    c10Bio.sector ≠ 0 ∧ c1CacheA.devStartSect ≤ c10Bio.sector ∧
    ((eio_map_rebase c1CacheA c10Bio (-5)).1 =
      { c10Bio with sector := c10Bio.sector - c1CacheA.devStartSect } ∧
     ((-5 : Int) ≠ 0 → (eio_map_rebase c1CacheA c10Bio (-5)).2.1 = c10Bio ∧
       (eio_map_rebase c1CacheA c10Bio (-5)).2.2 = -5)) :=
  ⟨by decide, by decide,
   (c10_sector_rebase_restore c1CacheA c10Bio (-5) (by decide) (by decide)).1,
   (c10_sector_rebase_restore c1CacheA c10Bio (-5) (by decide) (by decide)).2.1⟩
